import Mathlib

/-!
Verification of the zspell-index repository: a tool that crawls a remote
file-tree API (the wooorm/dictionaries GitHub repository) and builds a
versioned manifest of downloadable spell-check dictionary resources.

The embedding follows the two crates under src:
- zspell-index/src/lib.rs : the data model (Index, IndexEntry,
  DictionaryFormat, Downloadable) and its serde JSON shape;
- zspell-index-cli/src/main.rs : the synchronization algorithm
  (make_downloadable, update_inner, update_from_wooorm, write_to_file).

Effects are made explicit: network fetches become an environment record of
Except values, the uuid generator becomes a supplied fresh-id function, the
eprintln diagnostic stream becomes a list of Diag values, and file writes
become a list of emitted (path, document) pairs. Machine integers (u64 for
sizes, u8 for the schema version) are Nat with explicit bounds where the
JSON decoder checks them. The chrono DateTime and the Uuid are modelled by
their rendered string forms, which is how they appear in the JSON document.
-/

/-- Error taxonomy of the CLI. The Rust code uses anyhow errors; the three
distinguishable causes are transport failures, response-format failures and
the structural file-versus-directory mismatch raised in make_downloadable. -/
inductive Err
  | transport (msg : String)
  | responseFormat (msg : String)
  | structural (msg : String)
deriving DecidableEq, Repr

/-- The type field of a listing entry: a directory, or a file carrying a
download URL (mirrors enum ListingContents in main.rs). -/
inductive ListingContents
  | dir
  | file (download_url : String)
deriving DecidableEq, Repr

/-- A single subdirectory or file within a fetched tree (struct Listing in
main.rs). Sizes are u64-bounded Nat; sha is the hex digest string. -/
structure Listing where
  name : String
  path : String
  size : Nat
  sha : String
  url : String
  html_url : String
  git_url : String
  contents : ListingContents
deriving DecidableEq, Repr

/-- Contents of a directory: struct Tree in main.rs is a vector of listings
(named DirTree here because Mathlib already declares Tree). -/
abbrev DirTree := List Listing

/-- A file that can be downloaded (struct Downloadable in lib.rs). -/
structure Downloadable where
  urls : List String
  hash : String
  size : Nat
deriving DecidableEq, Repr

/-- Dictionary source files (enum DictionaryFormat in lib.rs), serialized
with an internal fmt tag. -/
inductive DictionaryFormat
  | hunspell (aff : Downloadable) (dic : Downloadable)
  | wordlist (d : Downloadable)
deriving DecidableEq, Repr

/-- A single item within an index (struct IndexEntry in lib.rs). The Uuid
field is modelled by its hyphenated string rendering. -/
structure IndexEntry where
  lang : String
  tags : List String
  is_ext : Bool
  id : String
  format : DictionaryFormat
  lic : Downloadable
deriving DecidableEq, Repr

/-- The version of the index serialization format (INDEX_VERSION in lib.rs). -/
def INDEX_VERSION : Nat := 1

/-- The main index entrypoint (struct Index in lib.rs). The chrono DateTime
field updated is modelled by its RFC3339 string rendering. -/
structure Index where
  schema_version : Nat
  updated : String
  retrieved : Option String
  items : List IndexEntry
deriving DecidableEq, Repr

/-- Index.new in lib.rs: schema_version is the format constant, updated is
the construction time (Utc.now, passed here as the parameter now),
retrieved is left unset and items starts empty. -/
def Index.new (now : String) : Index :=
  { schema_version := INDEX_VERSION
    updated := now
    retrieved := none
    items := [] }

/-- The provenance tag of this source (WOOORM_TAG in main.rs). -/
def WOOORM_TAG : String := "source-wooorm"

/-- Canonical compact output file name (FILE_NAME in main.rs). The constant
output directory prefix is the same for every run and is omitted. -/
def FILE_NAME : String := "zspell-index.json"

/-- Canonical pretty output file name (FILE_NAME_PRETTY in main.rs). -/
def FILE_NAME_PRETTY : String := "zspell-index-pretty.json"

/-- The three required file classes the resolver scans a language directory
for, in the order the code checks them. -/
inductive FileClass
  | affix
  | dictionary
  | license
deriving DecidableEq, Repr

/-- Rust str ends_with, written structurally on the character lists so that
concrete instances evaluate: true when suf is a suffix of s. -/
def strEndsWith (s suf : String) : Bool :=
  suf.toList.isSuffixOf s.toList

/-- Rust str starts_with, written structurally on the character lists. -/
def strStartsWith (s pre : String) : Bool :=
  pre.toList.isPrefixOf s.toList

/-- The name predicate update_inner uses for each file class: suffix .aff,
suffix .dic, and the case-sensitive suffix license. -/
def FileClass.matcher : FileClass → Listing → Bool
  | .affix, l => strEndsWith l.name ".aff"
  | .dictionary, l => strEndsWith l.name ".dic"
  | .license, l => strEndsWith l.name "license"

/-- The diagnostic stream (eprintln in the Rust code), reduced to the two
messages the claims are about: the skip line naming the language and the
missing file class, and the per-language hard-error line. -/
inductive Diag
  | skip (lang : String) (missing : FileClass)
  | hardError (lang : String)
deriving DecidableEq, Repr

/-- make_downloadable in main.rs: fails with the structural error when the
listing entry is a directory; otherwise builds a single-element URL list,
the hash string sha1 colon digest, and copies the size. -/
def make_downloadable (listing : Listing) : Except Err Downloadable :=
  match listing.contents with
  | .dir => .error (.structural "expected a file but got a directory")
  | .file download_url =>
      .ok { urls := [download_url]
            hash := "sha1:" ++ listing.sha
            size := listing.size }

/-- The body of update_inner in main.rs after the directory listing has been
fetched: scan for the first .aff match, the first .dic match and the first
license match; on a missing class return no entry with a skip diagnostic;
otherwise build the entry, propagating the structural error of
make_downloadable (evaluation order aff, dic, lic as in the Rust struct
literal). The uuid generated inside the Rust function is the freshId
parameter. -/
def update_inner (lang : String) (dirTree : DirTree) (freshId : String) :
    Except Err (Option IndexEntry) × List Diag :=
  match dirTree.find? (FileClass.matcher .affix) with
  | none => (.ok none, [.skip lang .affix])
  | some afxEntry =>
    match dirTree.find? (FileClass.matcher .dictionary) with
    | none => (.ok none, [.skip lang .dictionary])
    | some dicEntry =>
      match dirTree.find? (FileClass.matcher .license) with
      | none => (.ok none, [.skip lang .license])
      | some licEntry =>
        match make_downloadable afxEntry with
        | .error e => (.error e, [])
        | .ok aff =>
          match make_downloadable dicEntry with
          | .error e => (.error e, [])
          | .ok dic =>
            match make_downloadable licEntry with
            | .error e => (.error e, [])
            | .ok lic =>
              (.ok (some
                { lang := lang
                  tags := [WOOORM_TAG]
                  is_ext := false
                  id := freshId
                  format := .hunspell aff dic
                  lic := lic }), [])

/-- The effect environment of one run: the outcome of the latest-commit
fetch in get_latest_hash, the outcome of the top-level listing fetch, the
outcome of each per-language directory fetch keyed by its listing URL, and
the uuid generator keyed by the language whose entry is being built. -/
structure Env where
  latestHash : Except Err String
  rootListing : Except Err DirTree
  fetchDir : String → Except Err DirTree
  freshId : String → String

/-- update_inner including its opening directory-listing fetch: a fetch
failure is the hard error the Rust question-mark operator propagates. -/
def update_inner_full (env : Env) (lang : String) (dirUrl : String) :
    Except Err (Option IndexEntry) × List Diag :=
  match env.fetchDir dirUrl with
  | .error e => (.error e, [])
  | .ok t => update_inner lang t (env.freshId lang)

/-- Accumulated state of the language loop in update_from_wooorm: the items
vector, the has_errors flag, the languages resolution was attempted for,
and the diagnostic stream. -/
structure BuildState where
  items : List IndexEntry
  hasErrors : Bool
  attempted : List String
  diags : List Diag
deriving DecidableEq, Repr

/-- The for-loop of update_from_wooorm over the top-level listing:
non-directory entries are skipped, each directory name is treated as a
language code, a resolved entry is pushed, a soft skip continues, and a
hard error logs, sets has_errors and continues. -/
def processLangs (env : Env) : DirTree → BuildState
  | [] => { items := [], hasErrors := false, attempted := [], diags := [] }
  | dir :: rest =>
    match dir.contents with
    | .file _ => processLangs env rest
    | .dir =>
      let res := update_inner_full env dir.name dir.url
      let tail := processLangs env rest
      match res with
      | (.ok (some item), ds) =>
        { items := item :: tail.items
          hasErrors := tail.hasErrors
          attempted := dir.name :: tail.attempted
          diags := ds ++ tail.diags }
      | (.ok none, ds) =>
        { items := tail.items
          hasErrors := tail.hasErrors
          attempted := dir.name :: tail.attempted
          diags := ds ++ tail.diags }
      | (.error _, ds) =>
        { items := tail.items
          hasErrors := true
          attempted := dir.name :: tail.attempted
          diags := ds ++ Diag.hardError dir.name :: tail.diags }

/-- The semantics of Rust Path set_extension on a plain file name: the text
after the last dot is replaced by the new extension; a name without a dot
gets the extension appended. (The names used here never begin with a dot,
so the hidden-file special case of Rust does not arise.) -/
def setExt (name ext : String) : String :=
  let cs := name.toList
  if cs.contains '.' then
    String.mk (((cs.reverse.dropWhile (fun c => c != '.')).drop 1).reverse
               ++ '.' :: ext.toList)
  else
    String.mk (cs ++ '.' :: ext.toList)

/-- The output file names as a function of the has_errors flag: canonical
names on a clean run, and on an incomplete run both names get
set_extension incomplete.json applied, inserting the marker before the
final json extension. -/
def outputNames (hasErrors : Bool) : String × String :=
  if hasErrors then
    (setExt FILE_NAME "incomplete.json", setExt FILE_NAME_PRETTY "incomplete.json")
  else
    (FILE_NAME, FILE_NAME_PRETTY)

/-- JSON document model for the serde shape of the index. Numbers here are
the non-negative integers the index types produce (u8 and u64). -/
inductive Json
  | null
  | bool (b : Bool)
  | num (n : Nat)
  | str (s : String)
  | arr (elems : List Json)
  | obj (fields : List (String × Json))

/-- The serde field list of a Downloadable: urls, hash, size. -/
def Downloadable.fieldsJson (d : Downloadable) : List (String × Json) :=
  [("urls", .arr (d.urls.map .str)), ("hash", .str d.hash), ("size", .num d.size)]

/-- A Downloadable serializes as an object of its fields. -/
def Downloadable.toJson (d : Downloadable) : Json :=
  .obj d.fieldsJson

/-- The serde field list of a DictionaryFormat under the internal fmt tag
with lowercased variant names: the hunspell variant carries its two named
fields, and the newtype wordlist variant merges the fields of its inner
Downloadable next to the tag. -/
def DictionaryFormat.fieldsJson : DictionaryFormat → List (String × Json)
  | .hunspell aff dic =>
      [("fmt", .str "hunspell"), ("aff", aff.toJson), ("dic", dic.toJson)]
  | .wordlist d =>
      ("fmt", .str "wordlist") :: d.fieldsJson

/-- An IndexEntry serializes as one object: its own fields with the
fmt-tagged format fields flattened into the same level (serde flatten). -/
def IndexEntry.toJson (e : IndexEntry) : Json :=
  .obj ([("lang", .str e.lang),
         ("tags", .arr (e.tags.map .str)),
         ("is_ext", .bool e.is_ext),
         ("id", .str e.id)]
        ++ e.format.fieldsJson
        ++ [("lic", e.lic.toJson)])

/-- An Index serializes as an object with schema_version, updated (the
RFC3339 rendering of the DateTime), retrieved (null when unset) and the
items array. -/
def Index.toJson (i : Index) : Json :=
  .obj [("schema_version", .num i.schema_version),
        ("updated", .str i.updated),
        ("retrieved", match i.retrieved with
                      | none => .null
                      | some s => .str s),
        ("items", .arr (i.items.map IndexEntry.toJson))]

/-- Decode a JSON array of strings (the urls and tags vectors). -/
def decodeStrList : List Json → Option (List String)
  | [] => some []
  | .str s :: rest => (decodeStrList rest).map (s :: ·)
  | _ => none

/-- Decode the fields of a Downloadable from an object field list, looking
each serde field up by name and enforcing the u64 bound on size. -/
def decodeDownloadableFields (fields : List (String × Json)) : Option Downloadable :=
  match fields.lookup "urls", fields.lookup "hash", fields.lookup "size" with
  | some (.arr us), some (.str h), some (.num n) =>
      match decodeStrList us with
      | some urls => if n < 2 ^ 64 then some ⟨urls, h, n⟩ else none
      | none => none
  | _, _, _ => none

/-- A Downloadable deserializes from an object. -/
def Downloadable.fromJson : Json → Option Downloadable
  | .obj fields => decodeDownloadableFields fields
  | _ => none

/-- Deserialize the flattened DictionaryFormat from the field list of the
surrounding entry object: dispatch on the fmt tag, then read the variant
fields (for wordlist, the inner Downloadable fields sit in the same list). -/
def DictionaryFormat.fromFields (fields : List (String × Json)) :
    Option DictionaryFormat :=
  match fields.lookup "fmt" with
  | some (.str "hunspell") =>
      match fields.lookup "aff", fields.lookup "dic" with
      | some affJ, some dicJ =>
          match Downloadable.fromJson affJ, Downloadable.fromJson dicJ with
          | some aff, some dic => some (.hunspell aff dic)
          | _, _ => none
      | _, _ => none
  | some (.str "wordlist") => (decodeDownloadableFields fields).map .wordlist
  | _ => none

/-- An IndexEntry deserializes from one object: the named fields are read
directly and the remaining fmt-tagged fields reconstruct the format. -/
def IndexEntry.fromJson : Json → Option IndexEntry
  | .obj fields =>
      match fields.lookup "lang", fields.lookup "tags", fields.lookup "is_ext",
            fields.lookup "id", fields.lookup "lic" with
      | some (.str lang), some (.arr tagsJ), some (.bool isExt),
        some (.str id), some licJ =>
          match decodeStrList tagsJ, DictionaryFormat.fromFields fields,
                Downloadable.fromJson licJ with
          | some tags, some fmt, some lic =>
              some ⟨lang, tags, isExt, id, fmt, lic⟩
          | _, _, _ => none
      | _, _, _, _, _ => none
  | _ => none

/-- Decode the items array. -/
def decodeEntryList : List Json → Option (List IndexEntry)
  | [] => some []
  | j :: rest =>
      match IndexEntry.fromJson j with
      | some e => (decodeEntryList rest).map (e :: ·)
      | none => none

/-- An Index deserializes from the manifest object, enforcing the u8 bound
on schema_version and accepting null or a string for retrieved. -/
def Index.fromJson : Json → Option Index
  | .obj fields =>
      match fields.lookup "schema_version", fields.lookup "updated",
            fields.lookup "retrieved", fields.lookup "items" with
      | some (.num v), some (.str upd), some retJ, some (.arr itemsJ) =>
          match (match retJ with
                 | .null => some none
                 | .str s => some (some s)
                 | _ => none),
                decodeEntryList itemsJ with
          | some ret, some items =>
              if v < 2 ^ 8 then some ⟨v, upd, ret, items⟩ else none
          | _, _ => none
      | _, _, _, _ => none
  | _ => none

/-- write_to_file in main.rs: serialize once compactly and once pretty and
write each to its path. Both renderings print the same document, so each
write is recorded as the path paired with the serialized document; the
claims under verification do not concern write failures, which the model
therefore leaves out. -/
def write_to_file (index : Index) (outputPath outputPathPretty : String) :
    List (String × Json) :=
  [(outputPath, index.toJson), (outputPathPretty, index.toJson)]

/-- Observable trace of one run of update_from_wooorm: the overall outcome,
the languages for which per-language resolution was entered, the built
index if the run got that far, the has_errors flag, the file writes and the
diagnostics. -/
structure RunTrace where
  result : Except Err Unit
  attempted : List String
  builtIndex : Option Index
  hasErrors : Bool
  writes : List (String × Json)
  diags : List Diag

/-- update_from_wooorm in main.rs: fetch the latest commit hash, fetch the
top-level listing (the model keeps the fetched ref implicit in the
environment value), loop over the languages, construct Index.new at the
current time, install the accumulated items, pick the output names by the
has_errors flag and write both files. A failure of either opening fetch
aborts with no writes and no per-language work. -/
def update_from_wooorm (env : Env) (now : String) : RunTrace :=
  match env.latestHash with
  | .error e =>
      { result := .error e, attempted := [], builtIndex := none
        hasErrors := false, writes := [], diags := [] }
  | .ok _gitRef =>
    match env.rootListing with
    | .error e =>
        { result := .error e, attempted := [], builtIndex := none
          hasErrors := false, writes := [], diags := [] }
    | .ok allLangs =>
        let st := processLangs env allLangs
        let index : Index := { Index.new now with items := st.items }
        let names := outputNames st.hasErrors
        { result := .ok ()
          attempted := st.attempted
          builtIndex := some index
          hasErrors := st.hasErrors
          writes := write_to_file index names.1 names.2
          diags := st.diags }

/-- Substring test used to state the incomplete-marker property: pat occurs
contiguously in l. -/
def hasSub (pat : List Char) : List Char → Bool
  | [] => pat.isEmpty
  | c :: rest => pat.isPrefixOf (c :: rest) || hasSub pat rest

/-- String form of the substring test. -/
def strContainsSub (s pat : String) : Bool :=
  hasSub pat.toList s.toList

/-- Concrete file-listing fixture used by the witness theorems: a file
named n with digest sha, size sz, listing URL u slash n and download URL
d slash n. -/
def fileL (n sha : String) (sz : Nat) : Listing :=
  { name := n, path := n, size := sz, sha := sha, url := "u/" ++ n,
    html_url := "", git_url := "", contents := .file ("d/" ++ n) }

/-- Concrete directory-listing fixture used by the witness theorems. -/
def dirL (n : String) : Listing :=
  { name := n, path := n, size := 0, sha := "s", url := "u/" ++ n,
    html_url := "", git_url := "", contents := .dir }

/-- Concrete index fixture for the round-trip witness: one entry per
format variant. -/
def dlEx : Downloadable := ⟨["u1", "u2"], "sha1:abc", 42⟩

def entryEx : IndexEntry := ⟨"en", ["source-wooorm"], false, "uuid-1", .hunspell dlEx dlEx, dlEx⟩

def entryEx2 : IndexEntry := ⟨"x", [], true, "uuid-2", .wordlist dlEx, dlEx⟩

def idxEx : Index := ⟨1, "2024-01-01T00:00:00Z", none, [entryEx, entryEx2]⟩

def Downloadable.wf (d : Downloadable) : Prop := d.size < 2 ^ 64
instance : DecidablePred Downloadable.wf := fun d =>
  inferInstanceAs (Decidable (d.size < 2 ^ 64))

def DictionaryFormat.wf : DictionaryFormat → Prop
  | .hunspell aff dic => aff.wf ∧ dic.wf
  | .wordlist d => d.wf
instance : DecidablePred DictionaryFormat.wf := fun f =>
  match f with
  | .hunspell aff dic => inferInstanceAs (Decidable (aff.wf ∧ dic.wf))
  | .wordlist d => inferInstanceAs (Decidable (d.wf))

def IndexEntry.wf (e : IndexEntry) : Prop := e.format.wf ∧ e.lic.wf
instance : DecidablePred IndexEntry.wf := fun e =>
  inferInstanceAs (Decidable (e.format.wf ∧ e.lic.wf))

def Index.wf (i : Index) : Prop :=
  i.schema_version < 2 ^ 8 ∧ ∀ e ∈ i.items, e.wf
instance : DecidablePred Index.wf := fun i =>
  inferInstanceAs (Decidable (i.schema_version < 2 ^ 8 ∧ ∀ e ∈ i.items, e.wf))

/-- True exactly when this listing entry is a directory marker. -/
def isDirListing (d : Listing) : Bool :=
  match d.contents with
  | .dir => true
  | .file _ => false

/-- True exactly when the builder loop hits a hard per-language error on
this top-level entry: it is a directory and its resolution returns an
error. -/
def hardErr (env : Env) (d : Listing) : Bool :=
  match d.contents, (update_inner_full env d.name d.url).1 with
  | .dir, .error _ => true
  | _, _ => false

/-- The entry the builder loop keeps for one top-level listing entry: none
for files, skips and hard errors; the resolved entry otherwise. -/
def langResult (env : Env) (d : Listing) : Option IndexEntry :=
  match d.contents with
  | .file _ => none
  | .dir =>
    match update_inner_full env d.name d.url with
    | (.ok (some e), _) => some e
    | _ => none

def tW : DirTree := [fileL "en.aff" "aaa" 1, fileL "en.dic" "bbb" 2, fileL "license" "ccc" 3]
def tMissW : DirTree := [fileL "de.dic" "bbb" 2]
def tBadW : DirTree := [dirL "fr.aff", fileL "fr.dic" "b" 2, fileL "license" "c" 3]

def eW : IndexEntry :=
  { lang := "en", tags := [WOOORM_TAG], is_ext := false, id := "uuid-en",
    format := .hunspell ⟨["d/en.aff"], "sha1:aaa", 1⟩ ⟨["d/en.dic"], "sha1:bbb", 2⟩,
    lic := ⟨["d/license"], "sha1:ccc", 3⟩ }

def envW : Env :=
  { latestHash := .ok "g"
    rootListing := .ok [dirL "en", fileL "readme" "r" 1, dirL "de"]
    fetchDir := fun u =>
      if u = "u/en" then .ok tW
      else if u = "u/de" then .ok tMissW
      else .error (.transport "unknown url")
    freshId := fun l => "uuid-" ++ l }

def envBadW : Env :=
  { latestHash := .ok "g"
    rootListing := .ok [dirL "fr"]
    fetchDir := fun _ => .ok tBadW
    freshId := fun l => "uuid-" ++ l }

def envRootErrW : Env :=
  { latestHash := .ok "g"
    rootListing := .error (.transport "boom")
    fetchDir := fun _ => .error (.transport "boom")
    freshId := fun _ => "id" }

theorem decodeStrList_map (l : List String) : decodeStrList (l.map Json.str) = some l := by
  induction l with
  | nil => rfl
  | cons s rest ih => simp [decodeStrList, ih, List.map]

theorem dl_rt (urls : List String) (hsh : String) (size : Nat) (h : size < 2 ^ 64) :
    decodeDownloadableFields (Downloadable.fieldsJson ⟨urls, hsh, size⟩)
      = some ⟨urls, hsh, size⟩ := by
  have h1 : decodeDownloadableFields (Downloadable.fieldsJson ⟨urls, hsh, size⟩)
      = match decodeStrList (urls.map Json.str) with
        | some us => if size < 2 ^ 64 then some ⟨us, hsh, size⟩ else none
        | none => none := rfl
  rw [h1, decodeStrList_map]
  exact if_pos h

theorem dl_rt2 (d : Downloadable) (h : d.size < 2 ^ 64) :
    decodeDownloadableFields d.fieldsJson = some d := by
  obtain ⟨urls, hsh, size⟩ := d
  exact dl_rt urls hsh size h

theorem entry_rt (e : IndexEntry)
    (hf : match e.format with
          | .hunspell a d => a.size < 2 ^ 64 ∧ d.size < 2 ^ 64
          | .wordlist d => d.size < 2 ^ 64)
    (hl : e.lic.size < 2 ^ 64) :
    IndexEntry.fromJson e.toJson = some e := by
  obtain ⟨lang, tags, isExt, id, fmt, lic⟩ := e
  match fmt with
  | .hunspell a d =>
    obtain ⟨ha, hd⟩ := hf
    have h1 : IndexEntry.fromJson (IndexEntry.toJson ⟨lang, tags, isExt, id, .hunspell a d, lic⟩)
        = match decodeStrList (tags.map Json.str),
                (match decodeDownloadableFields a.fieldsJson, decodeDownloadableFields d.fieldsJson with
                 | some aff, some dic => some (DictionaryFormat.hunspell aff dic)
                 | _, _ => none),
                decodeDownloadableFields lic.fieldsJson with
          | some tags2, some fmt2, some lic2 => some (⟨lang, tags2, isExt, id, fmt2, lic2⟩ : IndexEntry)
          | _, _, _ => none := rfl
    rw [h1, decodeStrList_map, dl_rt2 a ha, dl_rt2 d hd, dl_rt2 lic hl]
  | .wordlist d =>
    have h1 : IndexEntry.fromJson (IndexEntry.toJson ⟨lang, tags, isExt, id, .wordlist d, lic⟩)
        = match decodeStrList (tags.map Json.str),
                (decodeDownloadableFields d.fieldsJson).map DictionaryFormat.wordlist,
                decodeDownloadableFields lic.fieldsJson with
          | some tags2, some fmt2, some lic2 => some (⟨lang, tags2, isExt, id, fmt2, lic2⟩ : IndexEntry)
          | _, _, _ => none := rfl
    rw [h1, decodeStrList_map, dl_rt2 d hf, dl_rt2 lic hl]
    rfl

theorem entry_rt_wf (e : IndexEntry) (h : e.wf) :
    IndexEntry.fromJson e.toJson = some e := by
  refine entry_rt e ?_ h.2
  have := h.1
  cases hf : e.format with
  | hunspell a d => rw [hf] at this; exact this
  | wordlist d => rw [hf] at this; exact this

theorem decodeEntryList_map (l : List IndexEntry) (h : ∀ e ∈ l, e.wf) :
    decodeEntryList (l.map IndexEntry.toJson) = some l := by
  induction l with
  | nil => rfl
  | cons e rest ih =>
    have h1 : decodeEntryList ((e :: rest).map IndexEntry.toJson)
        = match IndexEntry.fromJson e.toJson with
          | some e2 => (decodeEntryList (rest.map IndexEntry.toJson)).map (e2 :: ·)
          | none => none := rfl
    rw [h1, entry_rt_wf e (h e (by simp)), ih (fun x hx => h x (by simp [hx]))]
    rfl

theorem update_inner_ok_inv (lang : String) (t : DirTree) (fid : String)
    (e : IndexEntry) (ds : List Diag)
    (h : update_inner lang t fid = (.ok (some e), ds)) :
    ∃ a d lf ua ud ul,
      t.find? (FileClass.matcher .affix) = some a ∧ a.contents = .file ua ∧
      t.find? (FileClass.matcher .dictionary) = some d ∧ d.contents = .file ud ∧
      t.find? (FileClass.matcher .license) = some lf ∧ lf.contents = .file ul ∧
      ds = [] ∧
      e = { lang := lang
            tags := [WOOORM_TAG]
            is_ext := false
            id := fid
            format := .hunspell ⟨[ua], "sha1:" ++ a.sha, a.size⟩
                                ⟨[ud], "sha1:" ++ d.sha, d.size⟩
            lic := ⟨[ul], "sha1:" ++ lf.sha, lf.size⟩ } := by
  cases ha : t.find? (FileClass.matcher .affix) with
  | none => simp [update_inner, ha] at h
  | some a =>
  cases hdc : t.find? (FileClass.matcher .dictionary) with
  | none => simp [update_inner, ha, hdc] at h
  | some d =>
  cases hl : t.find? (FileClass.matcher .license) with
  | none => simp [update_inner, ha, hdc, hl] at h
  | some lf =>
  cases hac : a.contents with
  | dir => simp [update_inner, ha, hdc, hl, make_downloadable, hac] at h
  | file ua =>
  cases hdcc : d.contents with
  | dir => simp [update_inner, ha, hdc, hl, make_downloadable, hac, hdcc] at h
  | file ud =>
  cases hlc : lf.contents with
  | dir => simp [update_inner, ha, hdc, hl, make_downloadable, hac, hdcc, hlc] at h
  | file ul =>
    simp [update_inner, ha, hdc, hl, make_downloadable, hac, hdcc, hlc] at h
    exact ⟨a, d, lf, ua, ud, ul, rfl, hac, rfl, hdcc, rfl, hlc, h.2, h.1.symm⟩

theorem hardErr_eq_true_iff (env : Env) (d : Listing) :
    hardErr env d = true
      ↔ d.contents = .dir
        ∧ ∃ e, (update_inner_full env d.name d.url).1 = .error e := by
  unfold hardErr
  rcases hres : update_inner_full env d.name d.url with ⟨r, ds⟩
  cases hc : d.contents <;> cases r <;> simp [hc, hres]

theorem processLangs_hasErrors (env : Env) (l : DirTree) :
    (processLangs env l).hasErrors = l.any (hardErr env) := by
  induction l with
  | nil => rfl
  | cons dir rest ih =>
    cases hc : dir.contents with
    | file u => simp [processLangs, hc, hardErr, ih]
    | dir =>
      rcases hres : update_inner_full env dir.name dir.url with ⟨r, ds⟩
      cases r with
      | error e => simp [processLangs, hc, hres, hardErr, ih]
      | ok o => cases o <;> simp [processLangs, hc, hres, hardErr, ih]

theorem processLangs_items_filterMap (env : Env) (l : DirTree) :
    (processLangs env l).items = l.filterMap (langResult env) := by
  induction l with
  | nil => rfl
  | cons dir rest ih =>
    cases hc : dir.contents with
    | file u => simp [processLangs, hc, langResult, ih]
    | dir =>
      rcases hres : update_inner_full env dir.name dir.url with ⟨r, ds⟩
      cases r with
      | error e => simp [processLangs, hc, hres, langResult, ih]
      | ok o => cases o <;> simp [processLangs, hc, hres, langResult, ih]

theorem processLangs_attempted_filter (env : Env) (l : DirTree) :
    (processLangs env l).attempted = (l.filter isDirListing).map Listing.name := by
  induction l with
  | nil => rfl
  | cons dir rest ih =>
    cases hc : dir.contents with
    | file u => simp [processLangs, hc, isDirListing, ih]
    | dir =>
      rcases hres : update_inner_full env dir.name dir.url with ⟨r, ds⟩
      cases r with
      | error e => simp [processLangs, hc, hres, isDirListing, ih]
      | ok o => cases o <;> simp [processLangs, hc, hres, isDirListing, ih]

/-- Claim C1: when any of the three required file classes has no matching
name in a language directory listing, the resolver returns no entry without
an error, emitting one skip diagnostic that names the language and a
genuinely missing file class, and the builder neither flags the run
incomplete for that language nor records an item for it. -/
theorem c1_missing_file_soft_skip (env : Env) (dir : Listing) (rest t : DirTree)
    (hdir : dir.contents = .dir)
    (hfetch : env.fetchDir dir.url = .ok t)
    (hmiss : t.find? (FileClass.matcher .affix) = none
           ∨ t.find? (FileClass.matcher .dictionary) = none
           ∨ t.find? (FileClass.matcher .license) = none) :
    (∃ c : FileClass, t.find? (FileClass.matcher c) = none ∧
        update_inner dir.name t (env.freshId dir.name)
          = (.ok none, [.skip dir.name c]))
    ∧ (processLangs env (dir :: rest)).hasErrors = (processLangs env rest).hasErrors
    ∧ (processLangs env (dir :: rest)).items = (processLangs env rest).items := by
  have hskip : ∃ c : FileClass, t.find? (FileClass.matcher c) = none ∧
      update_inner dir.name t (env.freshId dir.name)
        = (.ok none, [.skip dir.name c]) := by
    cases ha : t.find? (FileClass.matcher .affix) with
    | none => exact ⟨.affix, ha, by simp [update_inner, ha]⟩
    | some a =>
      cases hdc : t.find? (FileClass.matcher .dictionary) with
      | none => exact ⟨.dictionary, hdc, by simp [update_inner, ha, hdc]⟩
      | some d =>
        cases hl : t.find? (FileClass.matcher .license) with
        | none => exact ⟨.license, hl, by simp [update_inner, ha, hdc, hl]⟩
        | some lf => rcases hmiss with h | h | h <;> simp_all
  obtain ⟨c, hc, hupd⟩ := hskip
  refine ⟨⟨c, hc, hupd⟩, ?_, ?_⟩ <;>
    simp [processLangs, hdir, update_inner_full, hfetch, hupd]

/-- Witness for claim C1 at a concrete input: language de with only a
dictionary file. -/
theorem c1_witness :
    (dirL "de").contents = ListingContents.dir
    ∧ envW.fetchDir (dirL "de").url = .ok tMissW
    ∧ ((∃ c : FileClass, tMissW.find? (FileClass.matcher c) = none ∧
          update_inner (dirL "de").name tMissW (envW.freshId (dirL "de").name)
            = (.ok none, [.skip (dirL "de").name c]))
       ∧ (processLangs envW [dirL "de"]).hasErrors = (processLangs envW []).hasErrors
       ∧ (processLangs envW [dirL "de"]).items = (processLangs envW []).items) :=
  ⟨rfl, rfl, c1_missing_file_soft_skip envW (dirL "de") [] tMissW rfl rfl (Or.inl rfl)⟩

/-- Claim C2: when a listing entry matched for a required file class is a
directory rather than a file, resolution of that language fails with the
structural hard error, the builder logs it, continues with the remaining
languages and sets the incomplete-run flag. -/
theorem c2_type_mismatch_hard_error (env : Env) (dir : Listing) (rest t : DirTree)
    (a d lf : Listing)
    (hdir : dir.contents = .dir)
    (hfetch : env.fetchDir dir.url = .ok t)
    (ha : t.find? (FileClass.matcher .affix) = some a)
    (hdc : t.find? (FileClass.matcher .dictionary) = some d)
    (hl : t.find? (FileClass.matcher .license) = some lf)
    (hmis : a.contents = .dir ∨ d.contents = .dir ∨ lf.contents = .dir) :
    (∃ msg, (update_inner dir.name t (env.freshId dir.name)).1
        = .error (.structural msg))
    ∧ (processLangs env (dir :: rest)).hasErrors = true
    ∧ (processLangs env (dir :: rest)).items = (processLangs env rest).items
    ∧ Diag.hardError dir.name ∈ (processLangs env (dir :: rest)).diags := by
  have hupd : update_inner dir.name t (env.freshId dir.name)
      = (.error (.structural "expected a file but got a directory"), []) := by
    cases hac : a.contents with
    | dir => simp [update_inner, ha, hdc, hl, make_downloadable, hac]
    | file ua =>
      cases hdcc : d.contents with
      | dir => simp [update_inner, ha, hdc, hl, make_downloadable, hac, hdcc]
      | file ud =>
        cases hlc : lf.contents with
        | dir => simp [update_inner, ha, hdc, hl, make_downloadable, hac, hdcc, hlc]
        | file ul => rcases hmis with h | h | h <;> simp_all
  refine ⟨⟨"expected a file but got a directory", by rw [hupd]⟩, ?_, ?_, ?_⟩ <;>
    simp [processLangs, hdir, update_inner_full, hfetch, hupd]

/-- Witness for claim C2 at a concrete input: language fr whose name
fr.aff is a subdirectory. -/
theorem c2_witness :
    (dirL "fr").contents = ListingContents.dir
    ∧ envBadW.fetchDir (dirL "fr").url = .ok tBadW
    ∧ tBadW.find? (FileClass.matcher .affix) = some (dirL "fr.aff")
    ∧ tBadW.find? (FileClass.matcher .dictionary) = some (fileL "fr.dic" "b" 2)
    ∧ tBadW.find? (FileClass.matcher .license) = some (fileL "license" "c" 3)
    ∧ ((∃ msg, (update_inner (dirL "fr").name tBadW (envBadW.freshId (dirL "fr").name)).1
          = .error (.structural msg))
       ∧ (processLangs envBadW [dirL "fr"]).hasErrors = true
       ∧ (processLangs envBadW [dirL "fr"]).items = (processLangs envBadW []).items
       ∧ Diag.hardError (dirL "fr").name ∈ (processLangs envBadW [dirL "fr"]).diags) :=
  ⟨rfl, rfl, rfl, rfl, rfl,
   c2_type_mismatch_hard_error envBadW (dirL "fr") [] tBadW
     (dirL "fr.aff") (fileL "fr.dic" "b" 2) (fileL "license" "c" 3)
     rfl rfl rfl rfl rfl (Or.inl rfl)⟩

/-- Claim C3: if fetching the top-level listing itself fails with a hard
error, the entire run aborts with that error, no output file is written, no
index is built and per-language resolution is never entered. -/
theorem c3_root_listing_failure_aborts (env : Env) (now g : String) (e : Err)
    (hh : env.latestHash = .ok g)
    (hr : env.rootListing = .error e) :
    (update_from_wooorm env now).result = .error e
    ∧ (update_from_wooorm env now).writes = []
    ∧ (update_from_wooorm env now).attempted = []
    ∧ (update_from_wooorm env now).builtIndex = none := by
  simp [update_from_wooorm, hh, hr]

/-- Witness for claim C3 at a concrete input: the root listing fetch fails
with a transport error. -/
theorem c3_witness :
    envRootErrW.latestHash = .ok "g"
    ∧ envRootErrW.rootListing = .error (.transport "boom")
    ∧ ((update_from_wooorm envRootErrW "t0").result = .error (.transport "boom")
       ∧ (update_from_wooorm envRootErrW "t0").writes = []
       ∧ (update_from_wooorm envRootErrW "t0").attempted = []
       ∧ (update_from_wooorm envRootErrW "t0").builtIndex = none) :=
  ⟨rfl, rfl, c3_root_listing_failure_aborts envRootErrW "t0" "g" (.transport "boom") rfl rfl⟩

/-- Claim C4 counterexample: a listing holding affix and dictionary files
and a file named LICENSE, which matches the license name case-insensitively
but not case-sensitively, is skipped with a missing-license diagnostic
instead of resolving to an entry. -/
theorem c4_counterexample_uppercase_license :
    ("LICENSE".toList.map Char.toLower = "license".toList)
    ∧ update_inner "en" [fileL "en.aff" "aaa" 1, fileL "en.dic" "bbb" 2,
        fileL "LICENSE" "ccc" 3] "uuid-en"
      = (.ok none, [.skip "en" .license]) :=
  ⟨by decide, rfl⟩

/-- Claim C4 as amended: the resolver locates the license file by a
case-sensitive suffix match of the name against the lowercase string
license; whenever the listing has first matches for all three classes and
they are files, resolution produces an entry rather than skipping. -/
theorem c4_case_sensitive_license_suffix (lang fid : String) (t : DirTree)
    (a d lf : Listing) (ua ud ul : String)
    (ha : t.find? (FileClass.matcher .affix) = some a)
    (hdc : t.find? (FileClass.matcher .dictionary) = some d)
    (hl : t.find? (FileClass.matcher .license) = some lf)
    (hac : a.contents = .file ua) (hdcc : d.contents = .file ud)
    (hlc : lf.contents = .file ul) :
    (FileClass.matcher .license lf = strEndsWith lf.name "license")
    ∧ ∃ e, update_inner lang t fid = (.ok (some e), []) := by
  refine ⟨rfl,
    ⟨{ lang := lang, tags := [WOOORM_TAG], is_ext := false, id := fid,
       format := .hunspell ⟨[ua], "sha1:" ++ a.sha, a.size⟩
                           ⟨[ud], "sha1:" ++ d.sha, d.size⟩,
       lic := ⟨[ul], "sha1:" ++ lf.sha, lf.size⟩ }, ?_⟩⟩
  simp [update_inner, ha, hdc, hl, make_downloadable, hac, hdcc, hlc]

/-- Witness for the amended claim C4 at a concrete input: a lowercase
license file next to the affix and dictionary files resolves. -/
theorem c4_witness :
    tW.find? (FileClass.matcher .affix) = some (fileL "en.aff" "aaa" 1)
    ∧ tW.find? (FileClass.matcher .dictionary) = some (fileL "en.dic" "bbb" 2)
    ∧ tW.find? (FileClass.matcher .license) = some (fileL "license" "ccc" 3)
    ∧ (fileL "en.aff" "aaa" 1).contents = ListingContents.file "d/en.aff"
    ∧ (fileL "en.dic" "bbb" 2).contents = ListingContents.file "d/en.dic"
    ∧ (fileL "license" "ccc" 3).contents = ListingContents.file "d/license"
    ∧ ((FileClass.matcher .license (fileL "license" "ccc" 3)
          = strEndsWith (fileL "license" "ccc" 3).name "license")
       ∧ ∃ e, update_inner "en" tW "uuid-en" = (.ok (some e), [])) :=
  ⟨rfl, rfl, rfl, rfl, rfl, rfl,
   c4_case_sensitive_license_suffix "en" "uuid-en" tW
     (fileL "en.aff" "aaa" 1) (fileL "en.dic" "bbb" 2) (fileL "license" "ccc" 3)
     "d/en.aff" "d/en.dic" "d/license" rfl rfl rfl rfl rfl rfl⟩

/-- Claim C5: for every well-formed index value, serializing to the JSON
manifest shape and deserializing yields a value equal to the original, the
flattened fmt-tagged format fields included. -/
theorem c5_serialize_round_trip (i : Index) (h : i.wf) : Index.fromJson i.toJson = some i := by
  obtain ⟨v, upd, ret, items⟩ := i
  obtain ⟨hv, hitems⟩ := h
  have hd := decodeEntryList_map items hitems
  cases ret with
  | none =>
    simp only [Index.wf] at hv
    simp [Index.toJson, Index.fromJson, List.lookup, hd]
    simpa using hv
  | some s =>
    simp only [Index.wf] at hv
    simp [Index.toJson, Index.fromJson, List.lookup, hd]
    simpa using hv

/-- Witness for claim C5 at a concrete index holding one entry per format
variant. -/
theorem c5_witness :
    idxEx.wf ∧ Index.fromJson idxEx.toJson = some idxEx :=
  ⟨by decide, c5_serialize_round_trip idxEx (by decide)⟩

/-- Claim C6: both output file names contain the incomplete marker exactly
when at least one hard per-language error occurred during the run, and with
zero hard errors both files are written under the canonical names. -/
theorem c6_incomplete_marker_iff_hard_error (env : Env) (now g : String)
    (lst : DirTree)
    (hh : env.latestHash = .ok g) (hr : env.rootListing = .ok lst) :
    ∃ p pp doc, (update_from_wooorm env now).writes = [(p, doc), (pp, doc)]
    ∧ ((strContainsSub p ".incomplete" = true ∧ strContainsSub pp ".incomplete" = true)
        ↔ ∃ d ∈ lst, d.contents = .dir
            ∧ ∃ e, (update_inner_full env d.name d.url).1 = .error e)
    ∧ ((¬ ∃ d ∈ lst, d.contents = .dir
            ∧ ∃ e, (update_inner_full env d.name d.url).1 = .error e)
        → p = FILE_NAME ∧ pp = FILE_NAME_PRETTY) := by
  have hiff : (processLangs env lst).hasErrors = true
      ↔ ∃ d ∈ lst, d.contents = .dir
          ∧ ∃ e, (update_inner_full env d.name d.url).1 = .error e := by
    simp only [processLangs_hasErrors, List.any_eq_true, hardErr_eq_true_iff]
  cases hflag : (processLangs env lst).hasErrors with
  | true =>
    have hx := hiff.mp hflag
    refine ⟨setExt FILE_NAME "incomplete.json",
            setExt FILE_NAME_PRETTY "incomplete.json",
            ({ Index.new now with items := (processLangs env lst).items} : Index).toJson,
            ?_, ?_, ?_⟩
    · simp [update_from_wooorm, hh, hr, hflag, outputNames, write_to_file]
    · exact ⟨fun _ => hx, fun _ => ⟨by decide, by decide⟩⟩
    · exact fun hn => (hn hx).elim
  | false =>
    refine ⟨FILE_NAME, FILE_NAME_PRETTY,
            ({ Index.new now with items := (processLangs env lst).items} : Index).toJson,
            ?_, ?_, ?_⟩
    · simp [update_from_wooorm, hh, hr, hflag, outputNames, write_to_file]
    · constructor
      · rintro ⟨h1, _⟩; exact absurd h1 (by decide)
      · intro hx; rw [← hiff] at hx; rw [hflag] at hx; cases hx
    · exact fun _ => ⟨rfl, rfl⟩

/-- Witness for claim C6 at a concrete input: one language whose affix
name is a subdirectory, so the run is incomplete. -/
theorem c6_witness :
    envBadW.latestHash = .ok "g"
    ∧ envBadW.rootListing = .ok [dirL "fr"]
    ∧ (∃ p pp doc, (update_from_wooorm envBadW "t0").writes = [(p, doc), (pp, doc)]
       ∧ ((strContainsSub p ".incomplete" = true ∧ strContainsSub pp ".incomplete" = true)
           ↔ ∃ d ∈ [dirL "fr"], d.contents = .dir
               ∧ ∃ e, (update_inner_full envBadW d.name d.url).1 = .error e)
       ∧ ((¬ ∃ d ∈ [dirL "fr"], d.contents = .dir
               ∧ ∃ e, (update_inner_full envBadW d.name d.url).1 = .error e)
           → p = FILE_NAME ∧ pp = FILE_NAME_PRETTY)) :=
  ⟨rfl, rfl, c6_incomplete_marker_iff_hard_error envBadW "t0" "g" [dirL "fr"] rfl rfl⟩

/-- Claim C7: the builder attempts resolution exactly for the directory
entries of the top-level listing, in order, ignoring every non-directory
entry, and the final items are exactly the successfully resolved entries in
top-level listing order. -/
theorem c7_items_exactly_resolved_in_order (env : Env) (now g : String)
    (lst : DirTree)
    (hh : env.latestHash = .ok g) (hr : env.rootListing = .ok lst) :
    (update_from_wooorm env now).attempted = (lst.filter isDirListing).map Listing.name
    ∧ ∃ idx, (update_from_wooorm env now).builtIndex = some idx
        ∧ idx.items = lst.filterMap (langResult env) := by
  refine ⟨?_, ⟨{ Index.new now with items := (processLangs env lst).items },
              ?_, ?_⟩⟩
  · simp [update_from_wooorm, hh, hr, processLangs_attempted_filter]
  · simp [update_from_wooorm, hh, hr]
  · simp [processLangs_items_filterMap]

/-- Witness for claim C7 at a concrete input: two language directories and
one top-level file. -/
theorem c7_witness :
    envW.latestHash = .ok "g"
    ∧ envW.rootListing = .ok [dirL "en", fileL "readme" "r" 1, dirL "de"]
    ∧ ((update_from_wooorm envW "t0").attempted
          = (([dirL "en", fileL "readme" "r" 1, dirL "de"].filter isDirListing).map Listing.name)
       ∧ ∃ idx, (update_from_wooorm envW "t0").builtIndex = some idx
           ∧ idx.items = [dirL "en", fileL "readme" "r" 1, dirL "de"].filterMap (langResult envW)) :=
  ⟨rfl, rfl, c7_items_exactly_resolved_in_order envW "t0" "g"
     [dirL "en", fileL "readme" "r" 1, dirL "de"] rfl rfl⟩

/-- Claim C8: every index the builder produces has schema_version equal to
INDEX_VERSION, updated set to the construction time, retrieved unset, and
only the items field is filled in from the run. -/
theorem c8_built_index_header (env : Env) (now g : String) (lst : DirTree)
    (hh : env.latestHash = .ok g)
    (hr : env.rootListing = .ok lst) :
    ∃ idx, (update_from_wooorm env now).builtIndex = some idx
      ∧ idx.schema_version = INDEX_VERSION
      ∧ idx.updated = now
      ∧ idx.retrieved = none
      ∧ idx.items = (processLangs env lst).items := by
  refine ⟨{ Index.new now with items := (processLangs env lst).items },
          ?_, rfl, rfl, rfl, rfl⟩
  simp [update_from_wooorm, hh, hr]

/-- Witness for claim C8 at a concrete input. -/
theorem c8_witness :
    envW.latestHash = .ok "g"
    ∧ envW.rootListing = .ok [dirL "en", fileL "readme" "r" 1, dirL "de"]
    ∧ (∃ idx, (update_from_wooorm envW "t0").builtIndex = some idx
        ∧ idx.schema_version = INDEX_VERSION
        ∧ idx.updated = "t0"
        ∧ idx.retrieved = none
        ∧ idx.items = (processLangs envW [dirL "en", fileL "readme" "r" 1, dirL "de"]).items) :=
  ⟨rfl, rfl, c8_built_index_header envW "t0" "g"
     [dirL "en", fileL "readme" "r" 1, dirL "de"] rfl rfl⟩

/-- Claim C9: every entry the resolver constructs carries exactly the one
provenance tag source-wooorm, has is_ext false, a Hunspell format built
from the matched affix and dictionary files, sha1-prefixed hashes copied
from the listing digests, and single-element URL lists. -/
theorem c9_resolver_entry_invariants (lang : String) (t : DirTree) (fid : String)
    (e : IndexEntry) (ds : List Diag)
    (h : update_inner lang t fid = (.ok (some e), ds)) :
    e.tags = [WOOORM_TAG]
    ∧ (e.tags.filter (fun s => strStartsWith s "source-")).length = 1
    ∧ e.is_ext = false
    ∧ e.lang = lang
    ∧ e.id = fid
    ∧ ∃ a d lf ua ud ul,
        t.find? (FileClass.matcher .affix) = some a ∧ a.contents = .file ua ∧
        t.find? (FileClass.matcher .dictionary) = some d ∧ d.contents = .file ud ∧
        t.find? (FileClass.matcher .license) = some lf ∧ lf.contents = .file ul ∧
        e.format = .hunspell ⟨[ua], "sha1:" ++ a.sha, a.size⟩
                             ⟨[ud], "sha1:" ++ d.sha, d.size⟩
        ∧ e.lic = ⟨[ul], "sha1:" ++ lf.sha, lf.size⟩ := by
  obtain ⟨a, d, lf, ua, ud, ul, ha, hac, hdc, hdcc, hl, hlc, hds, he⟩ :=
    update_inner_ok_inv lang t fid e ds h
  subst he
  exact ⟨rfl, rfl, rfl, rfl, rfl,
         a, d, lf, ua, ud, ul, ha, hac, hdc, hdcc, hl, hlc, rfl, rfl⟩

/-- Witness for claim C9 at a concrete input: the resolved entry for
language en. -/
theorem c9_witness :
    update_inner "en" tW "uuid-en" = (.ok (some eW), [])
    ∧ (eW.tags = [WOOORM_TAG]
       ∧ (eW.tags.filter (fun s => strStartsWith s "source-")).length = 1
       ∧ eW.is_ext = false
       ∧ eW.lang = "en"
       ∧ eW.id = "uuid-en"
       ∧ ∃ a d lf ua ud ul,
           tW.find? (FileClass.matcher .affix) = some a ∧ a.contents = .file ua ∧
           tW.find? (FileClass.matcher .dictionary) = some d ∧ d.contents = .file ud ∧
           tW.find? (FileClass.matcher .license) = some lf ∧ lf.contents = .file ul ∧
           eW.format = .hunspell ⟨[ua], "sha1:" ++ a.sha, a.size⟩
                                 ⟨[ud], "sha1:" ++ d.sha, d.size⟩
           ∧ eW.lic = ⟨[ul], "sha1:" ++ lf.sha, lf.size⟩) :=
  ⟨rfl, c9_resolver_entry_invariants "en" tW "uuid-en" eW [] rfl⟩

/-- Claim C10: whenever resolution succeeds, the listing entry chosen for
each required file class is the first match in listing order: the listing
splits as a prefix with no match, the chosen entry, and a remainder, and
the constructed downloadables come from exactly those chosen entries. -/
theorem c10_first_match_in_listing_order (lang : String) (t : DirTree)
    (fid : String) (e : IndexEntry) (ds : List Diag)
    (h : update_inner lang t fid = (.ok (some e), ds)) :
    ∃ a d lf,
      (∃ pre post, t = pre ++ a :: post ∧ FileClass.matcher .affix a = true
        ∧ ∀ x ∈ pre, FileClass.matcher .affix x = false)
    ∧ (∃ pre post, t = pre ++ d :: post ∧ FileClass.matcher .dictionary d = true
        ∧ ∀ x ∈ pre, FileClass.matcher .dictionary x = false)
    ∧ (∃ pre post, t = pre ++ lf :: post ∧ FileClass.matcher .license lf = true
        ∧ ∀ x ∈ pre, FileClass.matcher .license x = false)
    ∧ ∃ ua ud ul,
        a.contents = .file ua ∧ d.contents = .file ud ∧ lf.contents = .file ul
        ∧ e.format = .hunspell ⟨[ua], "sha1:" ++ a.sha, a.size⟩
                               ⟨[ud], "sha1:" ++ d.sha, d.size⟩
        ∧ e.lic = ⟨[ul], "sha1:" ++ lf.sha, lf.size⟩ := by
  obtain ⟨a, d, lf, ua, ud, ul, ha, hac, hdc, hdcc, hl, hlc, hds, he⟩ :=
    update_inner_ok_inv lang t fid e ds h
  subst he
  rw [List.find?_eq_some] at ha hdc hl
  obtain ⟨hpa, prea, posta, hta, hna⟩ := ha
  obtain ⟨hpd, pred, postd, htd, hnd⟩ := hdc
  obtain ⟨hpl, prel, postl, htl, hnl⟩ := hl
  exact ⟨a, d, lf,
         ⟨prea, posta, hta, hpa, fun x hx => by simpa using hna x hx⟩,
         ⟨pred, postd, htd, hpd, fun x hx => by simpa using hnd x hx⟩,
         ⟨prel, postl, htl, hpl, fun x hx => by simpa using hnl x hx⟩,
         ua, ud, ul, hac, hdcc, hlc, rfl, rfl⟩

/-- Witness for claim C10 at a concrete input: a listing carrying two
affix-suffixed names, where the earlier one is chosen. -/
theorem c10_witness :
    update_inner "en" (tW ++ [fileL "extra.aff" "zzz" 9]) "uuid-en" = (.ok (some eW), [])
    ∧ (∃ a d lf,
        (∃ pre post, tW ++ [fileL "extra.aff" "zzz" 9] = pre ++ a :: post
          ∧ FileClass.matcher .affix a = true
          ∧ ∀ x ∈ pre, FileClass.matcher .affix x = false)
      ∧ (∃ pre post, tW ++ [fileL "extra.aff" "zzz" 9] = pre ++ d :: post
          ∧ FileClass.matcher .dictionary d = true
          ∧ ∀ x ∈ pre, FileClass.matcher .dictionary x = false)
      ∧ (∃ pre post, tW ++ [fileL "extra.aff" "zzz" 9] = pre ++ lf :: post
          ∧ FileClass.matcher .license lf = true
          ∧ ∀ x ∈ pre, FileClass.matcher .license x = false)
      ∧ ∃ ua ud ul,
          a.contents = .file ua ∧ d.contents = .file ud ∧ lf.contents = .file ul
          ∧ eW.format = .hunspell ⟨[ua], "sha1:" ++ a.sha, a.size⟩
                                  ⟨[ud], "sha1:" ++ d.sha, d.size⟩
          ∧ eW.lic = ⟨[ul], "sha1:" ++ lf.sha, lf.size⟩) :=
  ⟨rfl, c10_first_match_in_listing_order "en" (tW ++ [fileL "extra.aff" "zzz" 9])
     "uuid-en" eW [] rfl⟩

